import Mathlib

/-!
# Verification of the ensimpl lookup and ranking engine

A shallow embedding of the ensimpl core: the shard registry, the batch gene
resolver, the cascade search engine, the region parser, and the JSON route
error mapping, together with proofs of the specified properties.

The repository ships the HTTP route layer (the `genes_model` / `genes_json` /
`genes_form` handlers), the notebook SQL for gene retrieval, and the front-end
templates; the core modules (`ensimpl.fetch.genes`, `ensimpl.fetch.utils`,
`ensimpl.fetch.dbs`) are not part of the available sources, so those
definitions are modelled from the specification, as marked in their doc
comments.
-/

set_option linter.unusedVariables false

namespace Ensimpl

/-- An external cross-reference: source database name and source-local id. -/
structure ExternalRef where
  db : String
  db_id : String
deriving DecidableEq

/-- A gene record as stored in a shard (`ensembl_genes` row in the notebook
SQL: ensembl_id, symbol, name, synonyms, external_ids, chromosome,
start_position, end_position, strand). -/
structure Gene where
  ensembl_id : String
  symbol : String
  name : String
  synonyms : List String
  external_ids : List ExternalRef
  chromosome : String
  start_position : Nat
  end_position : Nat
  strand : Int
deriving DecidableEq

/-- A shard: one read-only annotation store for a (species, release) pair. -/
structure Shard where
  genes : List Gene
deriving DecidableEq

/-- Error kinds of the core, from the spec's error handling design. -/
inductive CoreError
  | ShardNotFound
  | ShardIOError
  | EmptyResult
  | InvalidRegion
deriving DecidableEq

/-- A chromosomal region: chromosome name and 1-based inclusive bounds. -/
structure Region where
  chromosome : String
  start_position : Nat
  end_position : Nat
deriving DecidableEq

/-! ## Region string parsing (`ensimpl.fetch.utils.str_to_region`) -/

/-- Split a character list at the first occurrence of `c`: returns the part
before and the part after, or `none` when `c` does not occur. -/
def breakAt (c : Char) : List Char → Option (List Char × List Char)
  | [] => none
  | x :: xs =>
      if x = c then some ([], xs)
      else (breakAt c xs).map (fun p => (x :: p.1, p.2))

/-- Numeric value of a list of decimal digit characters. -/
def natOfDigits (l : List Char) : Nat :=
  l.foldl (fun n d => n * 10 + (d.toNat - 48)) 0

/-- A nonempty, all-decimal-digit character list. -/
def isDigits (l : List Char) : Bool :=
  !l.isEmpty && l.all Char.isDigit

/-- Modelled from the spec: `ensimpl.fetch.utils.str_to_region` is not among
the available sources (the notebook only calls it).  Per the spec, a region
string of the form `chr:start-end` parses into a Region; malformed input
(missing colon or dash, non-numeric bounds, start > end) fails with
`InvalidRegion`. -/
def str_to_region (s : String) : Except CoreError Region :=
  match breakAt ':' s.data with
  | none => .error .InvalidRegion
  | some (chrom, rest) =>
      if chrom.isEmpty then .error .InvalidRegion
      else
        match breakAt '-' rest with
        | none => .error .InvalidRegion
        | some (a, b) =>
            if isDigits a && isDigits b then
              if natOfDigits a ≤ natOfDigits b then
                .ok ⟨⟨chrom⟩, natOfDigits a, natOfDigits b⟩
              else .error .InvalidRegion
            else .error .InvalidRegion

/-- Decimal digit character for a value below ten. -/
def digitChar (d : Nat) : Char :=
  match d with
  | 0 => '0' | 1 => '1' | 2 => '2' | 3 => '3' | 4 => '4'
  | 5 => '5' | 6 => '6' | 7 => '7' | 8 => '8' | _ => '9'

/-- Fuel-driven digit expansion; the fuel bounds the number of divisions. -/
def natToDigitsAux : Nat → Nat → List Char
  | 0, n => [digitChar n]
  | fuel + 1, n =>
      if n < 10 then [digitChar n]
      else natToDigitsAux fuel (n / 10) ++ [digitChar (n % 10)]

/-- Decimal digit characters of a natural number, most significant first. -/
def natToDigits (n : Nat) : List Char :=
  natToDigitsAux n n

/-- Modelled from the spec: the `Region.__str__` formatter of
`ensimpl.fetch.utils` is not among the available sources (the notebook shows
`str(a) = '1:1000-10000'`).  Formats a Region as `chr:start-end`. -/
def region_to_str (r : Region) : String :=
  ⟨r.chromosome.data ++ ':' :: (natToDigits r.start_position
      ++ '-' :: natToDigits r.end_position)⟩

/-- The declarative well-formedness of a region string, following the spec's
words: form `chr:start-end`, nonempty chromosome, numeric bounds,
start ≤ end. -/
def WellFormedRegionStr (s : String) : Prop :=
  ∃ c a b : List Char,
    s.data = c ++ ':' :: (a ++ '-' :: b) ∧
    c ≠ [] ∧ ':' ∉ c ∧
    a ≠ [] ∧ (∀ x ∈ a, x.isDigit = true) ∧
    b ≠ [] ∧ (∀ x ∈ b, x.isDigit = true) ∧
    natOfDigits a ≤ natOfDigits b

/-! ## Search engine (`ensimpl.fetch.search`) -/

/-- Provenance of a search match: which cascade strategy produced it. -/
inductive MatchReason
  | exactId
  | symbolMatch
  | synonymMatch
  | externalIdMatch
deriving DecidableEq

/-- Cascade position of a strategy: earlier strategies have lower rank. -/
def reasonRank : MatchReason → Nat
  | .exactId => 0
  | .symbolMatch => 1
  | .synonymMatch => 2
  | .externalIdMatch => 3

/-- A search match: a gene record plus provenance (reason, matched value). -/
structure Match where
  gene : Gene
  reason : MatchReason
  match_value : String
deriving DecidableEq

/-- `needle` occurs contiguously inside `hay`. -/
def isSubstring (needle : List Char) : List Char → Bool
  | [] => needle.isEmpty
  | c :: rest => needle.isPrefixOf (c :: rest) || isSubstring needle rest

/-- ASCII lower-casing of one character. -/
def lowerChar (c : Char) : Char :=
  if 'A' ≤ c ∧ c ≤ 'Z' then Char.ofNat (c.toNat + 32) else c

/-- Case-folded character sequence of a string. -/
def lowerStr (s : String) : List Char :=
  s.data.map lowerChar

/-- Modelled from the spec: the term comparison of the missing search module —
case-insensitive equality when `ex` is true, case-insensitive substring
containment when false. -/
def matchesTerm (ex : Bool) (term field : String) : Bool :=
  if ex then lowerStr field = lowerStr term
  else isSubstring (lowerStr term) (lowerStr field)

/-- Modelled from the spec: the cascade classification of one gene by the
missing search module, first-match-wins per gene — exact stable-id equality
(case-sensitive), then symbol, then each synonym, then each cross-reference
local id.  Returns the strategy and the literal matched value. -/
def classify (ex : Bool) (term : String) (g : Gene) : Option (MatchReason × String) :=
  if term = g.ensembl_id then some (.exactId, g.ensembl_id)
  else if matchesTerm ex term g.symbol then some (.symbolMatch, g.symbol)
  else
    match g.synonyms.find? (fun s => matchesTerm ex term s) with
    | some s => some (.synonymMatch, s)
    | none =>
        match g.external_ids.find? (fun x => matchesTerm ex term x.db_id) with
        | some x => some (.externalIdMatch, x.db_id)
        | none => none

/-- All candidate matches of a term in a shard, in store order. -/
def candidates (sh : Shard) (ex : Bool) (term : String) : List Match :=
  sh.genes.filterMap (fun g =>
    (classify ex term g).map (fun rv => ⟨g, rv.1, rv.2⟩))

/-- Within-strategy order: shorter matched value first, then lexicographic
order of the stable identifier. -/
def matchLE (a b : Match) : Prop :=
  a.match_value.length < b.match_value.length ∨
    (a.match_value.length = b.match_value.length ∧
      a.gene.ensembl_id ≤ b.gene.ensembl_id)

instance : DecidableRel matchLE := fun a b => by
  unfold matchLE; infer_instance

instance : IsTotal Match matchLE := by
  constructor
  intro a b
  unfold matchLE
  rcases Nat.lt_trichotomy a.match_value.length b.match_value.length with h | h | h
  · exact Or.inl (Or.inl h)
  · rcases le_total a.gene.ensembl_id b.gene.ensembl_id with h2 | h2
    · exact Or.inl (Or.inr ⟨h, h2⟩)
    · exact Or.inr (Or.inr ⟨h.symm, h2⟩)
  · exact Or.inr (Or.inl h)

instance : IsTrans Match matchLE := by
  constructor
  intro a b c hab hbc
  unfold matchLE at *
  rcases hab with h1 | ⟨e1, s1⟩
  · rcases hbc with h2 | ⟨e2, s2⟩
    · exact Or.inl (h1.trans h2)
    · exact Or.inl (e2 ▸ h1)
  · rcases hbc with h2 | ⟨e2, s2⟩
    · exact Or.inl (e1 ▸ h2)
    · exact Or.inr ⟨e1.trans e2, s1.trans s2⟩

/-- The candidates of one cascade strategy, sorted by the within-strategy
order (matched-value length, then stable-id lexicographic order). -/
def strategyBucket (ms : List Match) (r : MatchReason) : List Match :=
  List.insertionSort matchLE (ms.filter (fun m => decide (m.reason = r)))

/-- Modelled from the spec: the full ordered match sequence of the missing
search module — the four strategy buckets concatenated in cascade order. -/
def orderedMatches (sh : Shard) (ex : Bool) (term : String) : List Match :=
  let c := candidates sh ex term
  strategyBucket c .exactId ++ strategyBucket c .symbolMatch ++
    strategyBucket c .synonymMatch ++ strategyBucket c .externalIdMatch

/-- A search result: ordered matches (the `matches` field of the JSON
payload, here `matchSeq` since `matches` is reserved), untruncated count,
limit applied. -/
structure SearchResult where
  matchSeq : List Match
  num_results : Nat
  limit : Int
deriving DecidableEq

/-- Modelled from the spec: `search` of the missing search module.  An empty
term (after trimming) yields an empty result with `num_results = 0`; the
match sequence is truncated to `limit` entries when `limit > 0` (a limit of
at most zero means no truncation) while `num_results` reports the
untruncated candidate count. -/
def search (sh : Shard) (term : String) (ex : Bool) (limit : Int) : SearchResult :=
  if (term.data.dropWhile Char.isWhitespace).isEmpty then ⟨[], 0, limit⟩
  else
    ⟨if limit ≤ 0 then orderedMatches sh ex term
      else (orderedMatches sh ex term).take limit.toNat,
      (orderedMatches sh ex term).length, limit⟩

/-! ## Identifier resolver (`ensimpl.fetch.genes.get`) -/

/-- Within-shard result order used by the resolver's SQL
(`ORDER BY e.ensembl_id`). -/
def geneLE (a b : Gene) : Prop :=
  a.ensembl_id ≤ b.ensembl_id

instance : DecidableRel geneLE := fun a b => by
  unfold geneLE; infer_instance

instance : IsTotal Gene geneLE :=
  ⟨fun a b => le_total a.ensembl_id b.ensembl_id⟩

instance : IsTrans Gene geneLE :=
  ⟨fun a b c h1 h2 => le_trans h1 h2⟩

/-- Modelled from the spec: `ensimpl.fetch.genes.get`, whose module is not
among the available sources; its SQL is in the notebook
(`WHERE e.ensembl_id IN (SELECT distinct ensembl_id FROM ...)` and
`ORDER BY e.ensembl_id`).  Returns the shard genes whose stable identifier
is among the requested identifiers, ordered by stable identifier; unknown
identifiers are silently dropped. -/
def get (sh : Shard) (ids : List String) : List Gene :=
  List.insertionSort geneLE
    (sh.genes.filter (fun g => decide (g.ensembl_id ∈ ids)))

/-! ## Shard registry (`ensimpl.fetch.dbs.get_database`) -/

/-- A discovered shard file: the (species, release) pair it serves and the
store it opens to. -/
structure ShardFile where
  release : String
  species : String
  store : Shard
deriving DecidableEq

/-- The registry state: the discovered pair index and the cache of opened
shard handles (the `dbs_dict` of the route code). -/
structure RegistryState where
  available : List ShardFile
  cache : List ((String × String) × Shard)
deriving DecidableEq

/-- Modelled from the spec: `ensimpl.fetch.dbs.get_database`, whose module is
not among the available sources (the route code calls
`dbs.get_database(release, species, dbs_dict)`).  A cache hit returns the
cached handle unchanged; a miss opens the discovered shard and caches it;
an unregistered pair fails with `ShardNotFound`. -/
def get_shard (st : RegistryState) (release species : String) :
    Except CoreError (Shard × RegistryState) :=
  match st.cache.find? (fun e => e.1.1 = release ∧ e.1.2 = species) with
  | some e => .ok (e.2, st)
  | none =>
      match st.available.find? (fun f => f.release = release ∧ f.species = species) with
      | some f => .ok (f.store, ⟨st.available, ((release, species), f.store) :: st.cache⟩)
      | none => .error .ShardNotFound

/-- Modelled from the spec: the stateless registry lookup used by
`resolve_identifiers` (shard handle for a pair, or `ShardNotFound`). -/
def get_database (st : RegistryState) (release species : String) :
    Except CoreError Shard :=
  (get_shard st release species).map (fun p => p.1)

/-- The core entry point behind the gene routes: resolve a batch of
identifiers against the shard of a (release, species) pair; an empty
resolved sequence is the semantic `EmptyResult` failure (the route code
raises `No results found` when `len(results) == 0`). -/
def resolve_identifiers (st : RegistryState) (release species : String)
    (ids : List String) : Except CoreError (List Gene) :=
  match get_database st release species with
  | .error e => .error e
  | .ok sh =>
      if get sh ids = [] then .error .EmptyResult else .ok (get sh ids)

/-! ## Region queries (`ensimpl.fetch.genes` region lookup) -/

/-- Modelled from the spec: the genes-overlapping-region query of the missing
fetch module — all genes on the region's chromosome whose [start,end]
interval intersects the query interval
(`gene.start <= region.end AND gene.end >= region.start`). -/
def genes_in_region (sh : Shard) (r : Region) : List Gene :=
  sh.genes.filter (fun g =>
    decide (g.chromosome = r.chromosome) &&
      decide (g.start_position ≤ r.end_position) &&
      decide (g.end_position ≥ r.start_position))

/-! ## The `genes_json` route (from the route source) -/

/-- The JSON body of a gene-resolution POST, with each expected key either
present or absent. -/
structure JsonBody where
  release : Option String
  species : Option String
  ids : Option (List String)
  details : Option String
deriving DecidableEq

/-- The body of an incoming POST: either undecodable JSON (the route's
`JSONDecodeError` branch) or a decoded JSON object. -/
inductive RequestBody
  | invalid
  | json (b : JsonBody)
deriving DecidableEq

/-- The observable outcome of the route: HTTP status, the `message` key of a
failure body, and the `genes` payload of a success body. -/
structure RouteResult where
  statusCode : Nat
  message : Option String
  genes : Option (List Gene)
deriving DecidableEq

/-- The `genes_json` POST handler, embedded from the route source: each
missing key, the undecodable-JSON case, a failed registry lookup, and an
empty result all set HTTP 404 and return a body with a `message` key;
success returns the resolved genes with the default 200 status. -/
def genes_json (st : RegistryState) (body : RequestBody) : RouteResult :=
  match body with
  | .invalid => ⟨404, some "Received data is not a valid JSON", none⟩
  | .json b =>
      match b.release with
      | none => ⟨404, some "release value is missing", none⟩
      | some release =>
          match b.species with
          | none => ⟨404, some "species value is missing", none⟩
          | some species =>
              match b.ids with
              | none => ⟨404, some "ids value is missing", none⟩
              | some ids =>
                  match resolve_identifiers st release species ids with
                  | .error .ShardNotFound =>
                      ⟨404, some "No database found", none⟩
                  | .error _ => ⟨404, some "No results found", none⟩
                  | .ok res => ⟨200, none, some res⟩

/-! ## Concrete fixtures for witnesses -/

/-- Test fixture: the `Ace` gene of the spec's scenario. -/
def gAce : Gene :=
  ⟨"ENSMUSG00000020681", "Ace", "angiotensin I converting enzyme", ["CD143"],
    [⟨"MGI", "MGI:87874"⟩], "11", 105970994, 105990225, 1⟩

/-- Test fixture: a second gene whose symbol contains `Ace`. -/
def gAce2 : Gene :=
  ⟨"ENSMUSG00000015405", "Ace2", "angiotensin I converting enzyme 2", [],
    [], "X", 164139342, 164188418, 1⟩

/-- Test fixture shard holding the two genes above. -/
def testShard : Shard := ⟨[gAce, gAce2]⟩

/-- Test fixture: a gene spanning [999,1001] on chromosome 1. -/
def gOverlap : Gene :=
  ⟨"ENSMUSG00000000031", "Gov", "overlapping gene", [], [], "1", 999, 1001, 1⟩

/-- Test fixture: a gene spanning [500,999] on chromosome 1. -/
def gBefore : Gene :=
  ⟨"ENSMUSG00000000032", "Gbe", "gene before the region", [], [], "1", 500, 999, 1⟩

/-- Test fixture shard for region queries. -/
def regionShard : Shard := ⟨[gOverlap, gBefore]⟩

/-- Test fixture registry: release 90 holds the two-gene shard, release 98 an
empty shard; the cache starts empty. -/
def testRegistry : RegistryState :=
  ⟨[⟨"90", "Mm", testShard⟩, ⟨"98", "Mm", ⟨[]⟩⟩], []⟩

/-- The registry state after opening the `(90, Mm)` shard from the test
registry. -/
def cachedRegistry : RegistryState :=
  ⟨testRegistry.available, [(("90", "Mm"), testShard)]⟩

/-! ## Search ordering lemmas -/

theorem reason_of_mem_strategyBucket {ms : List Match} {r : MatchReason} {m : Match}
    (h : m ∈ strategyBucket ms r) : m.reason = r := by
  unfold strategyBucket at h
  rw [List.mem_insertionSort] at h
  exact of_decide_eq_true (List.mem_filter.mp h).2

theorem pairwise_append_of {R : Match → Match → Prop} {l1 l2 : List Match}
    (h1 : l1.Pairwise R) (h2 : l2.Pairwise R)
    (h : ∀ a ∈ l1, ∀ b ∈ l2, R a b) : (l1 ++ l2).Pairwise R :=
  List.pairwise_append.mpr ⟨h1, h2, h⟩

theorem pairwise_bucket_rank (c : List Match) (r : MatchReason) :
    (strategyBucket c r).Pairwise
      (fun a b => reasonRank a.reason ≤ reasonRank b.reason) := by
  apply List.pairwise_of_forall_mem_list
  intro a ha b hb
  rw [reason_of_mem_strategyBucket ha, reason_of_mem_strategyBucket hb]

theorem rank_le_between {c : List Match} {r1 r2 : MatchReason}
    (h : reasonRank r1 ≤ reasonRank r2) :
    ∀ a ∈ strategyBucket c r1, ∀ b ∈ strategyBucket c r2,
      reasonRank a.reason ≤ reasonRank b.reason := by
  intro a ha b hb
  rw [reason_of_mem_strategyBucket ha, reason_of_mem_strategyBucket hb]
  exact h

theorem pairwise_rank_orderedMatches (sh : Shard) (ex : Bool) (term : String) :
    (orderedMatches sh ex term).Pairwise
      (fun a b => reasonRank a.reason ≤ reasonRank b.reason) := by
  unfold orderedMatches
  refine pairwise_append_of (pairwise_append_of (pairwise_append_of
      (pairwise_bucket_rank _ _) (pairwise_bucket_rank _ _)
      (rank_le_between (by decide)))
      (pairwise_bucket_rank _ _) ?_)
      (pairwise_bucket_rank _ _) ?_
  · intro a ha b hb
    rw [reason_of_mem_strategyBucket hb]
    rcases List.mem_append.mp ha with h | h <;>
      rw [reason_of_mem_strategyBucket h] <;> decide
  · intro a ha b hb
    rw [reason_of_mem_strategyBucket hb]
    rcases List.mem_append.mp ha with h | h
    · rcases List.mem_append.mp h with h2 | h2 <;>
        rw [reason_of_mem_strategyBucket h2] <;> decide
    · rw [reason_of_mem_strategyBucket h]; decide

theorem bucket_sorted (c : List Match) (r : MatchReason) :
    (strategyBucket c r).Pairwise matchLE :=
  List.sorted_insertionSort matchLE _

theorem filter_reason_bucket_self (c : List Match) (r : MatchReason) :
    (strategyBucket c r).filter (fun m => decide (m.reason = r)) =
      strategyBucket c r := by
  rw [List.filter_eq_self]
  intro a ha
  exact decide_eq_true (reason_of_mem_strategyBucket ha)

theorem filter_reason_bucket_ne (c : List Match) {r1 r : MatchReason} (h : ¬ r1 = r) :
    (strategyBucket c r1).filter (fun m => decide (m.reason = r)) = [] := by
  rw [List.filter_eq_nil_iff]
  intro a ha
  simp only [decide_eq_true_eq]
  rw [reason_of_mem_strategyBucket ha]
  exact h

theorem filter_reason_bucket (c : List Match) (r1 r : MatchReason) :
    (strategyBucket c r1).filter (fun m => decide (m.reason = r)) =
      if r1 = r then strategyBucket c r else [] := by
  by_cases h : r1 = r
  · subst h
    rw [if_pos rfl]
    exact filter_reason_bucket_self c r1
  · rw [if_neg h]
    exact filter_reason_bucket_ne c h

theorem filter_orderedMatches (sh : Shard) (ex : Bool) (term : String)
    (r : MatchReason) :
    (orderedMatches sh ex term).filter (fun m => decide (m.reason = r)) =
      strategyBucket (candidates sh ex term) r := by
  unfold orderedMatches
  cases r <;>
    simp [List.filter_append, filter_reason_bucket]

/-! ## Claim theorems: search ordering and truncation -/

/-- C1: for every search term, shard, mode and limit, in the returned match
sequence no match of a later cascade strategy precedes a match of an earlier
strategy: the strategy ranks (exact-id 0, symbol 1, synonym 2, external-id 3)
are non-decreasing along the sequence, regardless of the within-bucket
tie-break. -/
theorem search_cascade_order (sh : Shard) (term : String) (ex : Bool)
    (limit : Int) :
    (search sh term ex limit).matchSeq.Pairwise
      (fun a b => reasonRank a.reason ≤ reasonRank b.reason) := by
  unfold search
  split
  · simp
  · dsimp only
    split
    · exact pairwise_rank_orderedMatches sh ex term
    · exact List.Pairwise.sublist (List.take_sublist _ _)
        (pairwise_rank_orderedMatches sh ex term)

/-- C6: for every search, within each single cascade-strategy bucket the
matches are ordered by increasing matched-value length, and among equal
lengths by lexicographic order of the gene's stable identifier. -/
theorem search_bucket_order (sh : Shard) (term : String) (ex : Bool)
    (limit : Int) (r : MatchReason) :
    ((search sh term ex limit).matchSeq.filter
        (fun m => decide (m.reason = r))).Pairwise
      (fun a b => a.match_value.length < b.match_value.length ∨
        (a.match_value.length = b.match_value.length ∧
          a.gene.ensembl_id ≤ b.gene.ensembl_id)) := by
  unfold search
  have hfull : ((orderedMatches sh ex term).filter
      (fun m => decide (m.reason = r))).Pairwise matchLE := by
    rw [filter_orderedMatches]
    exact bucket_sorted _ r
  split
  · simp
  · dsimp only
    split
    · exact hfull
    · exact List.Pairwise.sublist
        ((List.take_sublist _ _).filter _) hfull

/-- C2: for every search with positive limit `L` at most the untruncated
candidate count, the returned match sequence has length exactly `L.toNat`,
while `num_results` still equals the untruncated count (the length of the
sequence an unlimited search returns). -/
theorem search_truncation (sh : Shard) (term : String) (ex : Bool) (L : Int)
    (h1 : 0 < L) (h2 : L.toNat ≤ (search sh term ex 0).num_results) :
    (search sh term ex L).matchSeq.length = L.toNat ∧
      (search sh term ex L).num_results =
        (search sh term ex 0).matchSeq.length := by
  by_cases hempty : (term.data.dropWhile Char.isWhitespace).isEmpty = true
  · exfalso
    have h0 : (search sh term ex 0).num_results = 0 := by
      unfold search
      rw [if_pos hempty]
    omega
  · have e1 : search sh term ex L =
        ⟨(orderedMatches sh ex term).take L.toNat,
          (orderedMatches sh ex term).length, L⟩ := by
      unfold search
      rw [if_neg hempty, if_neg (by omega : ¬ L ≤ 0)]
    have e0 : search sh term ex 0 =
        ⟨orderedMatches sh ex term, (orderedMatches sh ex term).length, 0⟩ := by
      unfold search
      rw [if_neg hempty, if_pos (by omega : (0 : Int) ≤ 0)]
    rw [e0] at h2
    rw [e1, e0]
    dsimp only at h2 ⊢
    rw [List.length_take]
    omega

/-- Witness for C2 at a concrete shard, term and limit. -/
theorem search_truncation_witness :
    (0 : Int) < 1 ∧
      (1 : Int).toNat ≤ (search testShard "Ace" false 0).num_results ∧
      ((search testShard "Ace" false 1).matchSeq.length = (1 : Int).toNat ∧
        (search testShard "Ace" false 1).num_results =
          (search testShard "Ace" false 0).matchSeq.length) :=
  ⟨by decide, by decide,
    search_truncation testShard "Ace" false 1 (by decide) (by decide)⟩

/-! ## Claim theorems: resolver, region query, errors, registry, route -/

/-- C3: over a shard whose stable identifiers are distinct, `get` returns no
duplicate gene records even when the input has duplicates; every returned
record's identifier was requested; the result depends only on the membership
of the input (so duplicates are harmless); and an unknown identifier is
silently dropped (removing it from the input changes nothing). -/
theorem resolve_nodup_subset (sh : Shard) (ids ids2 : List String) (u : String)
    (h : (sh.genes.map Gene.ensembl_id).Nodup) :
    (get sh ids).Nodup ∧
      (∀ g ∈ get sh ids, g.ensembl_id ∈ ids) ∧
      ((∀ x : String, x ∈ ids ↔ x ∈ ids2) → get sh ids = get sh ids2) ∧
      ((∀ g ∈ sh.genes, ¬ g.ensembl_id = u) → get sh (u :: ids) = get sh ids) := by
  refine ⟨?_, ?_, ?_, ?_⟩
  · have hg : sh.genes.Nodup := h.of_map
    have hf : (sh.genes.filter (fun g => decide (g.ensembl_id ∈ ids))).Nodup :=
      List.Nodup.sublist (List.filter_sublist _) hg
    exact (List.perm_insertionSort geneLE _).nodup_iff.mpr hf
  · intro g hgmem
    unfold get at hgmem
    rw [List.mem_insertionSort] at hgmem
    exact of_decide_eq_true (List.mem_filter.mp hgmem).2
  · intro hiff
    unfold get
    congr 1
    apply List.filter_congr
    intro g _
    exact decide_eq_decide.mpr (hiff g.ensembl_id)
  · intro hu
    unfold get
    congr 1
    apply List.filter_congr
    intro g hgm
    apply decide_eq_decide.mpr
    constructor
    · intro hm
      rcases List.mem_cons.mp hm with h1 | h1
      · exact absurd h1 (hu g hgm)
      · exact h1
    · exact fun hm => List.mem_cons_of_mem _ hm

/-- Witness for C3 at a concrete shard and identifier lists containing a
duplicate and an unknown identifier. -/
theorem resolve_nodup_subset_witness :
    (get testShard ["ENSMUSG00000020681", "BOGUS", "ENSMUSG00000020681"]).Nodup ∧
      (∀ g ∈ get testShard ["ENSMUSG00000020681", "BOGUS", "ENSMUSG00000020681"],
        g.ensembl_id ∈ ["ENSMUSG00000020681", "BOGUS", "ENSMUSG00000020681"]) :=
  ⟨(resolve_nodup_subset testShard
      ["ENSMUSG00000020681", "BOGUS", "ENSMUSG00000020681"]
      ["ENSMUSG00000020681", "BOGUS"] "BOGUS" (by decide)).1,
    (resolve_nodup_subset testShard
      ["ENSMUSG00000020681", "BOGUS", "ENSMUSG00000020681"]
      ["ENSMUSG00000020681", "BOGUS"] "BOGUS" (by decide)).2.1⟩

/-- C4: `genes_in_region` returns exactly the shard genes on the region's
chromosome whose interval satisfies the standard overlap test
(`gene.start <= region.end` and `gene.end >= region.start`); in particular,
for region 1:1000-10000 over a shard holding a gene spanning [999,1001] and
one spanning [500,999], exactly the former is returned. -/
theorem genes_in_region_correct :
    (∀ (sh : Shard) (r : Region) (g : Gene),
      g ∈ genes_in_region sh r ↔
        g ∈ sh.genes ∧ g.chromosome = r.chromosome ∧
          g.start_position ≤ r.end_position ∧
          g.end_position ≥ r.start_position) ∧
      genes_in_region regionShard ⟨"1", 1000, 10000⟩ = [gOverlap] := by
  refine ⟨?_, by decide⟩
  intro sh r g
  unfold genes_in_region
  rw [List.mem_filter]
  simp [and_assoc]

/-- C5: over an existing shard, `resolve_identifiers` fails with `EmptyResult`
exactly when the resolved record sequence is empty, and never with
`ShardNotFound` or an I/O error. -/
theorem resolve_empty_result (st : RegistryState) (release species : String)
    (sh : Shard) (ids : List String)
    (h : get_database st release species = .ok sh) :
    (resolve_identifiers st release species ids =
        .error .EmptyResult ↔ get sh ids = []) ∧
      resolve_identifiers st release species ids ≠ .error .ShardNotFound ∧
      resolve_identifiers st release species ids ≠ .error .ShardIOError := by
  unfold resolve_identifiers
  rw [h]
  dsimp only
  by_cases he : get sh ids = []
  · rw [if_pos he]
    exact ⟨⟨fun _ => he, fun _ => rfl⟩, by simp, by simp⟩
  · rw [if_neg he]
    exact ⟨⟨fun hres => absurd hres (by simp), fun hh => absurd hh he⟩,
      by simp, by simp⟩

/-- Witness for C5: a well-formed query over an existing (but empty) shard
matching nothing yields `EmptyResult`. -/
theorem resolve_empty_result_witness :
    resolve_identifiers testRegistry "98" "Mm" ["ENSMUSG00000020681"] =
      .error .EmptyResult :=
  (resolve_empty_result testRegistry "98" "Mm" ⟨[]⟩
    ["ENSMUSG00000020681"] rfl).1.mpr rfl

/-- C9: `get_shard` is idempotent — once a call returns a handle and a
registry state, calling again with the same pair returns the same handle and
leaves the state unchanged (no re-opening) — and a pair with no matching
shard fails with `ShardNotFound`. -/
theorem get_shard_idempotent (st : RegistryState) (release species : String) :
    (∀ (h : Shard) (st2 : RegistryState),
      get_shard st release species = .ok (h, st2) →
        get_shard st2 release species = .ok (h, st2)) ∧
      ((∀ e ∈ st.cache, ¬ (e.1.1 = release ∧ e.1.2 = species)) →
        (∀ f ∈ st.available, ¬ (f.release = release ∧ f.species = species)) →
          get_shard st release species = .error .ShardNotFound) := by
  constructor
  · intro hs st2 hcall
    unfold get_shard at hcall ⊢
    rcases hc : st.cache.find?
        (fun e => decide (e.1.1 = release ∧ e.1.2 = species)) with _ | e
    · rw [hc] at hcall
      rcases ha : st.available.find?
          (fun f => decide (f.release = release ∧ f.species = species)) with _ | f
      · rw [ha] at hcall
        exact absurd hcall (by simp)
      · rw [ha] at hcall
        simp only [Except.ok.injEq, Prod.mk.injEq] at hcall
        obtain ⟨rfl, rfl⟩ := hcall
        dsimp only
        simp [List.find?_cons]
    · rw [hc] at hcall
      simp only [Except.ok.injEq, Prod.mk.injEq] at hcall
      obtain ⟨rfl, rfl⟩ := hcall
      rw [hc]
  · intro h1 h2
    unfold get_shard
    have hc : st.cache.find?
        (fun e => decide (e.1.1 = release ∧ e.1.2 = species)) = none := by
      rw [List.find?_eq_none]
      intro e he
      simpa using h1 e he
    have ha : st.available.find?
        (fun f => decide (f.release = release ∧ f.species = species)) = none := by
      rw [List.find?_eq_none]
      intro f hf
      simpa using h2 f hf
    rw [hc, ha]

/-- Witness for C9: opening `(90, Mm)` once caches it and a repeat call
returns the same handle and state; an unregistered pair fails with
`ShardNotFound`. -/
theorem get_shard_idempotent_witness :
    get_shard cachedRegistry "90" "Mm" = .ok (testShard, cachedRegistry) ∧
      get_shard testRegistry "99" "Hs" = .error .ShardNotFound :=
  ⟨(get_shard_idempotent testRegistry "90" "Mm").1 testShard cachedRegistry rfl,
    (get_shard_idempotent testRegistry "99" "Hs").2 (by decide) (by decide)⟩

/-- C10: every failure of the `genes_json` endpoint — undecodable JSON, a
missing `release`, `species` or `ids` key, an unknown (species, release)
pair, or an empty result — is returned with HTTP 404 and a body carrying a
`message` key; no failure produces a 400 status. -/
theorem genes_json_failure_status (st : RegistryState) (body : RequestBody) :
    ((genes_json st body).genes = none →
        (genes_json st body).statusCode = 404 ∧
          (genes_json st body).message.isSome = true) ∧
      (genes_json st body).statusCode ≠ 400 := by
  unfold genes_json
  rcases body with _ | ⟨rel, sp, ids, det⟩
  · exact ⟨fun _ => ⟨rfl, rfl⟩, by simp⟩
  · dsimp only
    rcases rel with _ | release
    · exact ⟨fun _ => ⟨rfl, rfl⟩, by simp⟩
    rcases sp with _ | species
    · exact ⟨fun _ => ⟨rfl, rfl⟩, by simp⟩
    rcases ids with _ | ids
    · exact ⟨fun _ => ⟨rfl, rfl⟩, by simp⟩
    dsimp only
    rcases hres : resolve_identifiers st release species ids with e | res
    · rcases e with _ | _ | _ | _ <;> exact ⟨fun _ => ⟨rfl, rfl⟩, by simp⟩
    · exact ⟨fun hn => absurd hn (by simp), by simp⟩

/-- Witness for C10: an undecodable JSON body gets HTTP 404 with a message. -/
theorem genes_json_failure_status_witness :
    (genes_json testRegistry .invalid).statusCode = 404 ∧
      (genes_json testRegistry .invalid).message.isSome = true :=
  (genes_json_failure_status testRegistry .invalid).1 rfl

/-! ## Region parsing lemmas -/

theorem breakAt_eq_some {c : Char} :
    ∀ {l a b : List Char}, breakAt c l = some (a, b) →
      l = a ++ c :: b ∧ c ∉ a := by
  intro l
  induction l with
  | nil =>
      intro a b h
      exact absurd h (by simp [breakAt])
  | cons x xs ih =>
      intro a b h
      unfold breakAt at h
      by_cases hx : x = c
      · rw [if_pos hx] at h
        simp only [Option.some.injEq, Prod.mk.injEq] at h
        obtain ⟨rfl, rfl⟩ := h
        subst hx
        exact ⟨rfl, by simp⟩
      · rw [if_neg hx] at h
        obtain ⟨p, hp, hmap⟩ := Option.map_eq_some'.mp h
        obtain ⟨hp1, hp2⟩ := ih hp
        simp only [Prod.mk.injEq] at hmap
        obtain ⟨rfl, rfl⟩ := hmap
        constructor
        · rw [List.cons_append, ← hp1]
        · intro hmem
          rcases List.mem_cons.mp hmem with h1 | h1
          · exact hx h1.symm
          · exact hp2 h1

theorem breakAt_append {c : Char} (b : List Char) :
    ∀ {a : List Char}, c ∉ a → breakAt c (a ++ c :: b) = some (a, b) := by
  intro a
  induction a with
  | nil => intro; simp [breakAt]
  | cons x xs ih =>
      intro h
      have hx : ¬ x = c := fun he => h (he ▸ List.mem_cons_self x xs)
      rw [List.cons_append]
      unfold breakAt
      rw [if_neg hx, ih (fun hm => h (List.mem_cons_of_mem x hm))]
      rfl

theorem digitChar_isDigit (d : Nat) : (digitChar d).isDigit = true := by
  unfold digitChar
  split <;> decide

theorem digitChar_toNat : ∀ d, d < 10 → (digitChar d).toNat - 48 = d := by
  decide

theorem natOfDigits_append_digit (l : List Char) (d : Char) :
    natOfDigits (l ++ [d]) = natOfDigits l * 10 + (d.toNat - 48) := by
  unfold natOfDigits
  rw [List.foldl_append]
  rfl

theorem natOfDigits_natToDigitsAux :
    ∀ (fuel n : Nat), n ≤ fuel ∨ n < 10 →
      natOfDigits (natToDigitsAux fuel n) = n := by
  intro fuel
  induction fuel with
  | zero =>
      intro n hn
      have h10 : n < 10 := by omega
      show 0 * 10 + ((digitChar n).toNat - 48) = n
      rw [digitChar_toNat n h10]
      omega
  | succ fuel ih =>
      intro n hn
      show natOfDigits (if n < 10 then [digitChar n]
        else natToDigitsAux fuel (n / 10) ++ [digitChar (n % 10)]) = n
      split
      · rename_i h10
        show 0 * 10 + ((digitChar n).toNat - 48) = n
        rw [digitChar_toNat n h10]
        omega
      · rename_i h10
        have hdiv : n / 10 ≤ fuel := by omega
        rw [natOfDigits_append_digit, ih _ (Or.inl hdiv),
          digitChar_toNat _ (Nat.mod_lt _ (by omega))]
        omega

theorem natOfDigits_natToDigits (n : Nat) :
    natOfDigits (natToDigits n) = n :=
  natOfDigits_natToDigitsAux n n (Or.inl le_rfl)

theorem natToDigitsAux_digits :
    ∀ (fuel n : Nat), ∀ x ∈ natToDigitsAux fuel n, x.isDigit = true := by
  intro fuel
  induction fuel with
  | zero =>
      intro n x hx
      rw [show natToDigitsAux 0 n = [digitChar n] from rfl,
        List.mem_singleton] at hx
      subst hx
      exact digitChar_isDigit n
  | succ fuel ih =>
      intro n x hx
      show x.isDigit = true
      rw [show natToDigitsAux (fuel + 1) n = if n < 10 then [digitChar n]
        else natToDigitsAux fuel (n / 10) ++ [digitChar (n % 10)] from rfl] at hx
      split at hx
      · rw [List.mem_singleton] at hx
        subst hx
        exact digitChar_isDigit n
      · rcases List.mem_append.mp hx with h | h
        · exact ih _ x h
        · rw [List.mem_singleton] at h
          subst h
          exact digitChar_isDigit _

theorem natToDigits_digits (n : Nat) :
    ∀ x ∈ natToDigits n, x.isDigit = true :=
  natToDigitsAux_digits n n

theorem natToDigits_ne_nil (n : Nat) : natToDigits n ≠ [] := by
  unfold natToDigits
  cases n with
  | zero => simp [natToDigitsAux]
  | succ m =>
      show (if m + 1 < 10 then [digitChar (m + 1)]
        else natToDigitsAux m ((m + 1) / 10) ++ [digitChar ((m + 1) % 10)]) ≠ []
      split <;> simp

theorem digit_ne_dash {x : Char} (h : x.isDigit = true) : ¬ x = '-' := by
  intro he
  subst he
  exact absurd h (by decide)

theorem isDigits_of_parts {l : List Char} (h1 : l ≠ [])
    (h2 : ∀ x ∈ l, x.isDigit = true) : isDigits l = true := by
  unfold isDigits
  rw [Bool.and_eq_true, Bool.not_eq_true', List.all_eq_true]
  exact ⟨by simpa using h1, h2⟩

theorem parts_of_isDigits {l : List Char} (h : isDigits l = true) :
    l ≠ [] ∧ ∀ x ∈ l, x.isDigit = true := by
  unfold isDigits at h
  rw [Bool.and_eq_true, Bool.not_eq_true', List.all_eq_true] at h
  exact ⟨by simpa using h.1, h.2⟩

/-! ## Claim theorems: region parsing -/

/-- C7: formatting a Region whose chromosome name is nonempty and free of the
colon separator as `chr:start-end` and re-parsing yields the original
Region. -/
theorem region_roundtrip (r : Region) (h1 : r.chromosome.data ≠ [])
    (h2 : ':' ∉ r.chromosome.data)
    (h3 : r.start_position ≤ r.end_position) :
    str_to_region (region_to_str r) = .ok r := by
  unfold str_to_region region_to_str
  rw [show (⟨r.chromosome.data ++ ':' :: (natToDigits r.start_position
      ++ '-' :: natToDigits r.end_position)⟩ : String).data =
      r.chromosome.data ++ ':' :: (natToDigits r.start_position
      ++ '-' :: natToDigits r.end_position) from rfl]
  rw [breakAt_append _ h2]
  dsimp only
  rw [if_neg (by simpa using h1)]
  rw [breakAt_append _
    (fun hm => digit_ne_dash (natToDigits_digits _ _ hm) rfl)]
  dsimp only
  rw [if_pos (by
    rw [Bool.and_eq_true]
    exact ⟨isDigits_of_parts (natToDigits_ne_nil _) (natToDigits_digits _),
      isDigits_of_parts (natToDigits_ne_nil _) (natToDigits_digits _)⟩)]
  rw [if_pos (by rw [natOfDigits_natToDigits, natOfDigits_natToDigits]; exact h3)]
  rw [natOfDigits_natToDigits, natOfDigits_natToDigits]

/-- Counterexample for C7 as universally stated: a raw Region value whose
chromosome name itself contains the colon separator does not survive the
format-parse round trip — parsing its rendering fails with `InvalidRegion`
instead of returning the Region. -/
theorem region_roundtrip_cex :
    str_to_region (region_to_str ⟨"a:b", 1, 2⟩) ≠
      .ok (⟨"a:b", 1, 2⟩ : Region) := by
  rw [show str_to_region (region_to_str ⟨"a:b", 1, 2⟩) =
    .error .InvalidRegion from rfl]
  simp

/-- Witness for C7 at the notebook's concrete region `1:1000-10000`. -/
theorem region_roundtrip_witness :
    str_to_region (region_to_str ⟨"1", 1000, 10000⟩) =
      .ok (⟨"1", 1000, 10000⟩ : Region) :=
  region_roundtrip ⟨"1", 1000, 10000⟩ (by decide) (by decide) (by decide)

theorem str_to_region_cases (s : String) :
    (∃ r, str_to_region s = .ok r) ∨
      str_to_region s = .error .InvalidRegion := by
  unfold str_to_region
  split
  · exact Or.inr rfl
  · split
    · exact Or.inr rfl
    · split
      · exact Or.inr rfl
      · split
        · split
          · exact Or.inl ⟨_, rfl⟩
          · exact Or.inr rfl
        · exact Or.inr rfl

/-- C8: region parsing succeeds exactly on strings of the form
`chr:start-end` with nonempty chromosome, numeric bounds and start ≤ end;
every successfully parsed Region satisfies start ≤ end; and every malformed
input fails with `InvalidRegion`. -/
theorem region_parse_characterization (s : String) :
    (∀ r : Region, str_to_region s = .ok r →
        r.start_position ≤ r.end_position) ∧
      ((∃ r : Region, str_to_region s = .ok r) ↔ WellFormedRegionStr s) ∧
      (¬ WellFormedRegionStr s → str_to_region s = .error .InvalidRegion) := by
  have hchar : (∃ r : Region, str_to_region s = .ok r) ↔
      WellFormedRegionStr s := by
    constructor
    · rintro ⟨r, hr⟩
      unfold str_to_region at hr
      split at hr
      · exact absurd hr (by simp)
      · rename_i chrom rest hcolon
        split at hr
        · exact absurd hr (by simp)
        · split at hr
          · exact absurd hr (by simp)
          · rename_i a b hdash
            split at hr
            · split at hr
              · rename_i hdig hle
                obtain ⟨hs1, hs2⟩ := breakAt_eq_some hcolon
                obtain ⟨ht1, _⟩ := breakAt_eq_some hdash
                rw [Bool.and_eq_true] at hdig
                obtain ⟨ha1, ha2⟩ := parts_of_isDigits hdig.1
                obtain ⟨hb1, hb2⟩ := parts_of_isDigits hdig.2
                refine ⟨chrom, a, b, ?_, ?_, hs2, ha1, ha2, hb1, hb2, hle⟩
                · rw [hs1, ht1]
                · rename_i hne _ _
                  simpa using hne
              · exact absurd hr (by simp)
            · exact absurd hr (by simp)
    · rintro ⟨c, a, b, hs, hc1, hc2, ha1, ha2, hb1, hb2, hle⟩
      unfold str_to_region
      rw [hs, breakAt_append _ hc2]
      dsimp only
      rw [if_neg (by simpa using hc1)]
      rw [breakAt_append _ (fun hm => digit_ne_dash (ha2 _ hm) rfl)]
      dsimp only
      rw [if_pos (by
        rw [Bool.and_eq_true]
        exact ⟨isDigits_of_parts ha1 ha2, isDigits_of_parts hb1 hb2⟩)]
      rw [if_pos hle]
      exact ⟨_, rfl⟩
  refine ⟨?_, hchar, ?_⟩
  · intro r hr
    unfold str_to_region at hr
    split at hr
    · exact absurd hr (by simp)
    · split at hr
      · exact absurd hr (by simp)
      · split at hr
        · exact absurd hr (by simp)
        · split at hr
          · split at hr
            · rename_i hle
              simp only [Except.ok.injEq] at hr
              subst hr
              exact hle
            · exact absurd hr (by simp)
          · exact absurd hr (by simp)
  · intro hnwf
    rcases str_to_region_cases s with ⟨r, hr⟩ | herr
    · exact absurd (hchar.mp ⟨r, hr⟩) hnwf
    · exact herr

/-- Witness for C8: the concrete string `1:1000-10000` parses and the parsed
bounds are ordered. -/
theorem region_parse_characterization_witness :
    (1000 : Nat) ≤ 10000 :=
  (region_parse_characterization "1:1000-10000").1
    ⟨"1", 1000, 10000⟩ rfl

end Ensimpl
